import Mathlib

/-!
Verification of the ad-dashboard charting core: the per-creative aggregation
pipeline (`Tab2Report.tsx`), the daily-profit stacked chart's slot assignment,
color ranking and pointer hit-test (`DailyProfitChart`), the performance-matrix
coordinate mapping and scatter hit-test (`MatrixChart.tsx`), and the tooltip
grace-timer controller shared by both charts.

Numbers are modelled as exact rationals (ℚ): the source operates on IEEE
doubles, whose rounding is irrelevant to the order-theoretic and conservation
properties verified here; "within floating-point tolerance" statements become
exact equalities over ℚ.  The matrix hit-radius computation uses `Math.sqrt`
and `Math.PI`, so that one component is modelled over ℝ instead.
-/

namespace AdDashboard

/-! ## Aggregation pipeline (`Tab2Report.tsx`, `aggregatedByCreative`)

A raw record row.  Numeric fields are `Option ℚ`: the source coalesces each
field on read with `c.field || 0`, so `none` models a missing/absent field. -/

structure CreativeRecord where
  date : String
  creativeName : String
  creativeLink : String
  impressions : Option ℚ
  cv : Option ℚ
  cost : Option ℚ
  revenue : Option ℚ
  profit : Option ℚ
deriving DecidableEq

/-- Group key: `c.creativeName || '(未分類)'` (empty string is falsy in JS). -/
def groupKey (c : CreativeRecord) : String :=
  if c.creativeName = "" then "(未分類)" else c.creativeName

/-- One bucket of the `grouped` Map in `aggregatedByCreative`. -/
structure CreativeGroup where
  creativeName : String
  creativeLink : String
  adCount : ℕ
  impressions : ℚ
  cv : ℚ
  cost : ℚ
  revenue : ℚ
  profit : ℚ
deriving DecidableEq

/-- The `grouped.set(name, {...})` branch for a fresh key. -/
def initGroup (c : CreativeRecord) : CreativeGroup :=
  { creativeName := groupKey c
    creativeLink := c.creativeLink
    adCount := 1
    impressions := c.impressions.getD 0
    cv := c.cv.getD 0
    cost := c.cost.getD 0
    revenue := c.revenue.getD 0
    profit := c.profit.getD 0 }

/-- The `existing.field += c.field || 0` branch. -/
def addRecord (g : CreativeGroup) (c : CreativeRecord) : CreativeGroup :=
  { g with
    adCount := g.adCount + 1
    impressions := g.impressions + c.impressions.getD 0
    cv := g.cv + c.cv.getD 0
    cost := g.cost + c.cost.getD 0
    revenue := g.revenue + c.revenue.getD 0
    profit := g.profit + c.profit.getD 0 }

/-- Insertion-ordered `Map` upsert: update the existing bucket in place, or
append a fresh bucket at the end (JS `Map` preserves insertion order). -/
def upsert : List CreativeGroup → CreativeRecord → List CreativeGroup
  | [], c => [initGroup c]
  | g :: gs, c =>
      if g.creativeName = groupKey c then addRecord g c :: gs
      else g :: upsert gs c

/-- `filteredCreatives.forEach(...)` builds the `grouped` map. -/
def groupRecords (rs : List CreativeRecord) : List CreativeGroup :=
  rs.foldl upsert []

/-- A finished `AggregatedCreativeData` row with derived metrics. -/
structure AggregatedCreative extends CreativeGroup where
  cpm : ℚ
  cpa : ℚ
  roas : ℚ
deriving DecidableEq

/-- The `.map(g => ({...g, cpm, cpa, roas}))` step with its zero guards. -/
def finalizeGroup (g : CreativeGroup) : AggregatedCreative :=
  { toCreativeGroup := g
    cpm := if g.impressions > 0 then g.cost / g.impressions * 1000 else 0
    cpa := if g.cv > 0 then g.cost / g.cv else 0
    roas := if g.cost > 0 then g.revenue / g.cost * 100 else 0 }

/-- Comparator of the final `.sort((a, b) => b.profit - a.profit)`:
`a` may precede `b` when `a.profit ≥ b.profit` (descending, stable). -/
def profitDesc (a b : AggregatedCreative) : Bool :=
  decide (b.profit ≤ a.profit)

/-- `aggregatedByCreative`: group, derive metrics, sort by profit descending. -/
def aggregatedByCreative (rs : List CreativeRecord) : List AggregatedCreative :=
  ((groupRecords rs).map finalizeGroup).mergeSort profitDesc

/-- Total profit held by a list of buckets. -/
def groupProfitSum (gs : List CreativeGroup) : ℚ :=
  (gs.map (·.profit)).sum

lemma upsert_profitSum (gs : List CreativeGroup) (c : CreativeRecord) :
    groupProfitSum (upsert gs c) = groupProfitSum gs + c.profit.getD 0 := by
  induction gs with
  | nil => simp [upsert, groupProfitSum, initGroup]
  | cons g gs ih =>
      by_cases h : g.creativeName = groupKey c
      · simp [upsert, h, groupProfitSum, addRecord]
        ring
      · simp [upsert, h, groupProfitSum] at ih ⊢
        rw [ih]
        ring

lemma foldl_upsert_profitSum (rs : List CreativeRecord) (gs : List CreativeGroup) :
    groupProfitSum (rs.foldl upsert gs)
      = groupProfitSum gs + (rs.map (fun c => c.profit.getD 0)).sum := by
  induction rs generalizing gs with
  | nil => simp
  | cons c rs ih =>
      simp only [List.foldl_cons, List.map_cons, List.sum_cons]
      rw [ih, upsert_profitSum]
      ring

lemma finalize_profit (g : CreativeGroup) :
    (finalizeGroup g).profit = g.profit := rfl

/-- C1: aggregation conserves profit.  For every input record set, the sum of
`profit` over all `CreativeAggregate` buckets produced by `aggregatedByCreative`
equals the sum of `profit` over the input records, a missing profit field
counting as 0 (exact rational arithmetic, hence within any tolerance). -/
theorem aggregation_conserves_profit (rs : List CreativeRecord) :
    ((aggregatedByCreative rs).map (·.profit)).sum
      = (rs.map (fun c => c.profit.getD 0)).sum := by
  have hperm : (aggregatedByCreative rs).Perm ((groupRecords rs).map finalizeGroup) :=
    List.mergeSort_perm _ _
  have hsum := (hperm.map (·.profit)).sum_eq
  rw [aggregatedByCreative] at *
  rw [hsum]
  have : (((groupRecords rs).map finalizeGroup).map (·.profit)).sum
      = groupProfitSum (groupRecords rs) := by
    rw [List.map_map]
    rfl
  rw [this, groupRecords, foldl_upsert_profitSum]
  simp [groupProfitSum]

/-- C2: zero-guard totality.  Every row the aggregation outputs satisfies the
division guards: summed `cv = 0` forces `cpa = 0`, summed `impressions = 0`
forces `cpm = 0`, summed `cost = 0` forces `roas = 0`.  Over ℚ the derived
metrics are total (no NaN/Infinity exists to produce). -/
theorem zero_guard_totality (rs : List CreativeRecord) (a : AggregatedCreative)
    (ha : a ∈ aggregatedByCreative rs) :
    (a.cv = 0 → a.cpa = 0) ∧ (a.impressions = 0 → a.cpm = 0) ∧
      (a.cost = 0 → a.roas = 0) := by
  have hmem : a ∈ (groupRecords rs).map finalizeGroup :=
    (List.mergeSort_perm _ profitDesc).mem_iff.mp ha
  rcases List.mem_map.mp hmem with ⟨g, _, rfl⟩
  refine ⟨fun h => ?_, fun h => ?_, fun h => ?_⟩
  · simp [finalizeGroup] at h ⊢
    simp [h]
  · simp [finalizeGroup] at h ⊢
    simp [h]
  · simp [finalizeGroup] at h ⊢
    simp [h]

/-- Concrete record used to witness the zero-guard theorem. -/
def zgRecord : CreativeRecord :=
  { date := "2025-01-01", creativeName := "A", creativeLink := ""
    impressions := some 0, cv := some 0, cost := some 0
    revenue := some 4, profit := some 4 }

/-- The single aggregate row produced from `zgRecord`. -/
def zgRow : AggregatedCreative := finalizeGroup (initGroup zgRecord)

lemma mergeSort_single {α : Type} (le : α → α → Bool) (a : α) :
    List.mergeSort [a] le = [a] :=
  List.perm_singleton.mp (List.mergeSort_perm [a] le)

lemma zg_mem : zgRow ∈ aggregatedByCreative [zgRecord] := by
  have : aggregatedByCreative [zgRecord] = [zgRow] := by
    rw [aggregatedByCreative, groupRecords]
    simp only [List.foldl_cons, List.foldl_nil, upsert, List.map_cons, List.map_nil]
    exact mergeSort_single _ _
  rw [this]
  exact List.mem_singleton_self _

/-- Witness for C2 at a concrete input record with all-zero denominators. -/
theorem zero_guard_totality_witness :
    (zgRow.cv = 0 → zgRow.cpa = 0) ∧ (zgRow.impressions = 0 → zgRow.cpm = 0) ∧
      (zgRow.cost = 0 → zgRow.roas = 0) :=
  zero_guard_totality [zgRecord] zgRow zg_mem

/-! ## Matrix chart coordinate mapping (`MatrixChart.tsx`, `chartData` useMemo) -/

/-- `getQuadrant`: profit sign picks top/bottom, CV-vs-mean picks left/right. -/
def getQuadrant (cv profit avgCV : ℚ) : ℕ :=
  if avgCV ≤ cv then (if 0 ≤ profit then 1 else 2)
  else (if 0 ≤ profit then 3 else 4)

/-- `calculateRelativePosition`: mean-relative position, clamped to [-100, 100]. -/
def calculateRelativePosition (value avg : ℚ) (isInverted : Bool) : ℚ :=
  if avg = 0 then 0
  else
    let pos := max (-100) (min 100 ((value / avg - 1) * 50))
    if isInverted then -pos else pos

/-- `calculateBubbleSize`: ROAS-vs-mean ratio, clamped to [0.5, 2.0]. -/
def calculateBubbleSize (roas avgROAS : ℚ) : ℚ :=
  if avgROAS = 0 then 1 else max (1/2) (min 2 (roas / avgROAS))

/-- `data.filter(c => c.cv > 0 && c.cost > 0)`. -/
def cvPositiveData (data : List AggregatedCreative) : List AggregatedCreative :=
  data.filter (fun c => decide (0 < c.cv) && decide (0 < c.cost))

/-- `data.filter(c => c.cv === 0 && c.cost > 0 && c.profit < 0)`. -/
def cvZeroData (data : List AggregatedCreative) : List AggregatedCreative :=
  data.filter (fun c => decide (c.cv = 0) && decide (0 < c.cost) && decide (c.profit < 0))

/-- `Math.max(...xs)` over a non-empty spread (the source guards emptiness). -/
def listMax : List ℚ → ℚ
  | [] => 0
  | x :: xs => xs.foldl max x

/-- `Math.min(...xs)` over a non-empty spread (the source guards emptiness). -/
def listMin : List ℚ → ℚ
  | [] => 0
  | x :: xs => xs.foldl min x

/-- The statistics the `chartData` useMemo computes before mapping points. -/
structure MatrixCtx where
  avgCV : ℚ
  avgROAS : ℚ
  maxProfit : ℚ
  minProfitInProfitable : ℚ
  maxLoss : ℚ
  minLoss : ℚ
deriving DecidableEq

/-- `avgCV`, `avgROAS`, `maxProfit`, `minProfitInProfitable`, `maxLoss`,
`minLoss` exactly as guarded in the source. -/
def matrixCtx (data : List AggregatedCreative) : MatrixCtx :=
  let cvPos := cvPositiveData data
  let profitable := cvPos.filter (fun c => decide (0 ≤ c.profit))
  let lossData := cvPos.filter (fun c => decide (c.profit < 0))
  { avgCV := if 0 < cvPos.length then ((cvPos.map (·.cv)).sum) / cvPos.length else 0
    avgROAS := if 0 < cvPos.length then ((cvPos.map (·.roas)).sum) / cvPos.length else 0
    maxProfit := if 0 < profitable.length then listMax (profitable.map (·.profit)) else 0
    minProfitInProfitable :=
      if 0 < profitable.length then listMin (profitable.map (·.profit)) else 0
    maxLoss := if 0 < lossData.length then listMax (lossData.map (·.profit)) else 0
    minLoss := if 0 < lossData.length then listMin (lossData.map (·.profit)) else 0 }

/-- A rendered matrix bubble (`BubbleDataItem`): the creative's metrics plus
the computed chart coordinates. -/
structure BubblePoint where
  creativeName : String
  cv : ℚ
  cost : ℚ
  revenue : ℚ
  profit : ℚ
  roas : ℚ
  x : ℚ
  y : ℚ
  z : ℚ
  quadrant : ℕ
deriving DecidableEq

/-- The `yPosition` branch for a cv-positive creative: range-normalized within
the profit-nonnegative sub-range onto [5, 95], or within the loss sub-range
onto [-95, -5]; a zero-span sub-range maps to the midpoint. -/
def posYPosition (ctx : MatrixCtx) (profit : ℚ) : ℚ :=
  if 0 ≤ profit then
    if ctx.maxProfit - ctx.minProfitInProfitable = 0 then 50
    else 5 + (profit - ctx.minProfitInProfitable)
            / (ctx.maxProfit - ctx.minProfitInProfitable) * 90
  else
    if ctx.maxLoss - ctx.minLoss = 0 then -50
    else -95 + (profit - ctx.minLoss) / (ctx.maxLoss - ctx.minLoss) * 90

/-- One element of `cvPositivePoints`. -/
def mkPosPoint (ctx : MatrixCtx) (c : AggregatedCreative) : BubblePoint :=
  { creativeName := c.creativeName, cv := c.cv, cost := c.cost
    revenue := c.revenue, profit := c.profit, roas := c.roas
    x := calculateRelativePosition c.cv ctx.avgCV false
    y := posYPosition ctx c.profit
    z := calculateBubbleSize c.roas ctx.avgROAS
    quadrant := getQuadrant c.cv c.profit ctx.avgCV }

/-- `maxProfitZero` over the cv-zero loser sub-population. -/
def zeroProfitMax (data : List AggregatedCreative) : ℚ :=
  listMax ((cvZeroData data).map (·.profit))

/-- `minProfitZero` over the cv-zero loser sub-population. -/
def zeroProfitMin (data : List AggregatedCreative) : ℚ :=
  listMin ((cvZeroData data).map (·.profit))

/-- One element of `cvZeroPoints`: pinned to `x = -95`, stacked in the lower
half by profit, fixed size `z = 0.8`, quadrant 4. -/
def mkZeroPoint (maxP minP : ℚ) (c : AggregatedCreative) : BubblePoint :=
  { creativeName := c.creativeName, cv := c.cv, cost := c.cost
    revenue := c.revenue, profit := c.profit, roas := c.roas
    x := -95
    y := if maxP - minP = 0 then -75 else -100 + (c.profit - minP) / (maxP - minP) * 50
    z := 4/5
    quadrant := 4 }

/-- `cvPositivePoints` of the useMemo. -/
def cvPositivePoints (data : List AggregatedCreative) : List BubblePoint :=
  (cvPositiveData data).map (mkPosPoint (matrixCtx data))

/-- `cvZeroPoints` of the useMemo (`[]` unless the sub-population is present). -/
def cvZeroPoints (data : List AggregatedCreative) : List BubblePoint :=
  if 0 < (cvZeroData data).length then
    (cvZeroData data).map (mkZeroPoint (zeroProfitMax data) (zeroProfitMin data))
  else []

/-- `points = [...cvPositivePoints, ...cvZeroPoints]`, with the useMemo's
early return when both filtered populations are empty. -/
def matrixPoints (data : List AggregatedCreative) : List BubblePoint :=
  if (cvPositiveData data).length = 0 ∧ (cvZeroData data).length = 0 then []
  else cvPositivePoints data ++ cvZeroPoints data

lemma foldl_max_init_le (xs : List ℚ) (a : ℚ) : a ≤ xs.foldl max a := by
  induction xs generalizing a with
  | nil => simp
  | cons x xs ih => exact le_trans (le_max_left a x) (ih (max a x))

lemma foldl_min_le_init (xs : List ℚ) (a : ℚ) : xs.foldl min a ≤ a := by
  induction xs generalizing a with
  | nil => simp
  | cons x xs ih => exact le_trans (ih (min a x)) (min_le_left a x)

lemma foldl_max_mem_le (xs : List ℚ) (b : ℚ) (hb : b ∈ xs) :
    ∀ a, b ≤ xs.foldl max a := by
  induction xs with
  | nil => cases hb
  | cons x xs ih =>
      intro a
      rcases List.mem_cons.mp hb with rfl | h
      · exact le_trans (le_max_right a b) (foldl_max_init_le xs _)
      · exact ih h (max a x)

lemma foldl_min_mem_le (xs : List ℚ) (b : ℚ) (hb : b ∈ xs) :
    ∀ a, xs.foldl min a ≤ b := by
  induction xs with
  | nil => cases hb
  | cons x xs ih =>
      intro a
      rcases List.mem_cons.mp hb with rfl | h
      · exact le_trans (foldl_min_le_init xs _) (min_le_right a b)
      · exact ih h (min a x)

lemma le_listMax (l : List ℚ) (b : ℚ) (hb : b ∈ l) : b ≤ listMax l := by
  cases l with
  | nil => cases hb
  | cons x xs =>
      rcases List.mem_cons.mp hb with rfl | h
      · exact foldl_max_init_le xs b
      · exact foldl_max_mem_le xs b h x

lemma listMin_le (l : List ℚ) (b : ℚ) (hb : b ∈ l) : listMin l ≤ b := by
  cases l with
  | nil => cases hb
  | cons x xs =>
      rcases List.mem_cons.mp hb with rfl | h
      · exact foldl_min_le_init xs b
      · exact foldl_min_mem_le xs b h x

lemma ratio_unit_bounds {lo hi p : ℚ} (h1 : lo ≤ p) (h2 : p ≤ hi)
    (hne : hi - lo ≠ 0) : 0 ≤ (p - lo) / (hi - lo) ∧ (p - lo) / (hi - lo) ≤ 1 := by
  have hlt : 0 < hi - lo := lt_of_le_of_ne (by linarith) (Ne.symm hne)
  constructor
  · exact div_nonneg (by linarith) (le_of_lt hlt)
  · rw [div_le_one hlt]
    linarith

lemma mem_cvPositiveData {data : List AggregatedCreative} {c : AggregatedCreative}
    (hc : c ∈ cvPositiveData data) : c ∈ data ∧ 0 < c.cv ∧ 0 < c.cost := by
  have := List.mem_filter.mp hc
  simpa using this

lemma mem_cvZeroData {data : List AggregatedCreative} {c : AggregatedCreative}
    (hc : c ∈ cvZeroData data) : c ∈ data ∧ c.cv = 0 ∧ 0 < c.cost ∧ c.profit < 0 := by
  have h := List.mem_filter.mp hc
  simp only [Bool.and_eq_true, decide_eq_true_eq] at h
  tauto

lemma profitable_profit_bounds {data : List AggregatedCreative}
    {c : AggregatedCreative} (hc : c ∈ cvPositiveData data) (hp : 0 ≤ c.profit) :
    (matrixCtx data).minProfitInProfitable ≤ c.profit ∧
      c.profit ≤ (matrixCtx data).maxProfit := by
  have hmem : c ∈ (cvPositiveData data).filter (fun c => decide (0 ≤ c.profit)) :=
    List.mem_filter.mpr ⟨hc, by simpa using hp⟩
  have hlen : 0 < ((cvPositiveData data).filter (fun c => decide (0 ≤ c.profit))).length :=
    List.length_pos.mpr (List.ne_nil_of_mem hmem)
  have hmm : c.profit ∈ ((cvPositiveData data).filter
      (fun c => decide (0 ≤ c.profit))).map (·.profit) :=
    List.mem_map.mpr ⟨c, hmem, rfl⟩
  constructor
  · simp only [matrixCtx, hlen, if_pos]
    exact listMin_le _ _ hmm
  · simp only [matrixCtx, hlen, if_pos]
    exact le_listMax _ _ hmm

lemma loss_profit_bounds {data : List AggregatedCreative}
    {c : AggregatedCreative} (hc : c ∈ cvPositiveData data) (hp : c.profit < 0) :
    (matrixCtx data).minLoss ≤ c.profit ∧ c.profit ≤ (matrixCtx data).maxLoss := by
  have hmem : c ∈ (cvPositiveData data).filter (fun c => decide (c.profit < 0)) :=
    List.mem_filter.mpr ⟨hc, by simpa using hp⟩
  have hlen : 0 < ((cvPositiveData data).filter (fun c => decide (c.profit < 0))).length :=
    List.length_pos.mpr (List.ne_nil_of_mem hmem)
  have hmm : c.profit ∈ ((cvPositiveData data).filter
      (fun c => decide (c.profit < 0))).map (·.profit) :=
    List.mem_map.mpr ⟨c, hmem, rfl⟩
  constructor
  · simp only [matrixCtx, hlen, if_pos]
    exact listMin_le _ _ hmm
  · simp only [matrixCtx, hlen, if_pos]
    exact le_listMax _ _ hmm

lemma zero_profit_bounds {data : List AggregatedCreative}
    {c : AggregatedCreative} (hc : c ∈ cvZeroData data) :
    zeroProfitMin data ≤ c.profit ∧ c.profit ≤ zeroProfitMax data := by
  have hmm : c.profit ∈ (cvZeroData data).map (·.profit) :=
    List.mem_map.mpr ⟨c, hc, rfl⟩
  exact ⟨listMin_le _ _ hmm, le_listMax _ _ hmm⟩

lemma calculateRelativePosition_bounds (v a : ℚ) :
    -100 ≤ calculateRelativePosition v a false ∧
      calculateRelativePosition v a false ≤ 100 := by
  rw [calculateRelativePosition]
  by_cases h : a = 0
  · simp [h]
  · simp only [h, if_false, if_neg, Bool.false_eq_true]
    constructor
    · exact le_max_left _ _
    · exact max_le (by norm_num) (min_le_left _ _)

lemma calculateBubbleSize_bounds (r a : ℚ) :
    1/2 ≤ calculateBubbleSize r a ∧ calculateBubbleSize r a ≤ 2 := by
  rw [calculateBubbleSize]
  by_cases h : a = 0
  · norm_num [h]
  · simp only [h, if_false]
    constructor
    · exact le_max_left _ _
    · exact max_le (by norm_num) (min_le_left _ _)

lemma posYPosition_nonneg_bounds {data : List AggregatedCreative}
    {c : AggregatedCreative} (hc : c ∈ cvPositiveData data) (hp : 0 ≤ c.profit) :
    5 ≤ posYPosition (matrixCtx data) c.profit ∧
      posYPosition (matrixCtx data) c.profit ≤ 95 := by
  obtain ⟨hlo, hhi⟩ := profitable_profit_bounds hc hp
  rw [posYPosition, if_pos hp]
  by_cases hr : (matrixCtx data).maxProfit - (matrixCtx data).minProfitInProfitable = 0
  · rw [if_pos hr]; norm_num
  · rw [if_neg hr]
    obtain ⟨h0, h1⟩ := ratio_unit_bounds hlo hhi hr
    constructor <;> nlinarith

lemma posYPosition_neg_bounds {data : List AggregatedCreative}
    {c : AggregatedCreative} (hc : c ∈ cvPositiveData data) (hp : c.profit < 0) :
    -95 ≤ posYPosition (matrixCtx data) c.profit ∧
      posYPosition (matrixCtx data) c.profit ≤ -5 := by
  obtain ⟨hlo, hhi⟩ := loss_profit_bounds hc hp
  rw [posYPosition, if_neg (not_le.mpr hp)]
  by_cases hr : (matrixCtx data).maxLoss - (matrixCtx data).minLoss = 0
  · rw [if_pos hr]; norm_num
  · rw [if_neg hr]
    obtain ⟨h0, h1⟩ := ratio_unit_bounds hlo hhi hr
    constructor <;> nlinarith

lemma mkZeroPoint_y_bounds {data : List AggregatedCreative}
    {c : AggregatedCreative} (hc : c ∈ cvZeroData data) :
    -100 ≤ (mkZeroPoint (zeroProfitMax data) (zeroProfitMin data) c).y ∧
      (mkZeroPoint (zeroProfitMax data) (zeroProfitMin data) c).y ≤ -50 := by
  obtain ⟨hlo, hhi⟩ := zero_profit_bounds hc
  rw [mkZeroPoint]
  by_cases hr : zeroProfitMax data - zeroProfitMin data = 0
  · simp only [hr, if_pos]
    norm_num
  · simp only [hr, if_neg, if_false]
    obtain ⟨h0, h1⟩ := ratio_unit_bounds hlo hhi hr
    constructor <;> nlinarith

/-- C6: matrix clamping and range-normalized profit mapping.  Every computed
bubble has `x ∈ [-100, 100]`, `y ∈ [-100, 100]` and `z ∈ [0.5, 2.0]`; a
cv-positive creative with positive profit is mapped linearly onto
`y ∈ [5, 95]` (midpoint 50 when the nonnegative-profit sub-range has zero
span) and one with negative profit linearly onto `y ∈ [-95, -5]` (midpoint
-50 when the loss sub-range has zero span). -/
theorem matrix_clamping (data : List AggregatedCreative) :
    (∀ p ∈ matrixPoints data,
        (-100 ≤ p.x ∧ p.x ≤ 100) ∧ (-100 ≤ p.y ∧ p.y ≤ 100) ∧
          (1/2 ≤ p.z ∧ p.z ≤ 2))
  ∧ (∀ c ∈ cvPositiveData data, 0 < c.profit →
        (5 ≤ (mkPosPoint (matrixCtx data) c).y ∧ (mkPosPoint (matrixCtx data) c).y ≤ 95)
      ∧ ((matrixCtx data).maxProfit - (matrixCtx data).minProfitInProfitable ≠ 0 →
          (mkPosPoint (matrixCtx data) c).y
            = 5 + (c.profit - (matrixCtx data).minProfitInProfitable)
                / ((matrixCtx data).maxProfit - (matrixCtx data).minProfitInProfitable) * 90)
      ∧ ((matrixCtx data).maxProfit - (matrixCtx data).minProfitInProfitable = 0 →
          (mkPosPoint (matrixCtx data) c).y = 50))
  ∧ (∀ c ∈ cvPositiveData data, c.profit < 0 →
        (-95 ≤ (mkPosPoint (matrixCtx data) c).y ∧ (mkPosPoint (matrixCtx data) c).y ≤ -5)
      ∧ ((matrixCtx data).maxLoss - (matrixCtx data).minLoss ≠ 0 →
          (mkPosPoint (matrixCtx data) c).y
            = -95 + (c.profit - (matrixCtx data).minLoss)
                / ((matrixCtx data).maxLoss - (matrixCtx data).minLoss) * 90)
      ∧ ((matrixCtx data).maxLoss - (matrixCtx data).minLoss = 0 →
          (mkPosPoint (matrixCtx data) c).y = -50)) := by
  refine ⟨?_, ?_, ?_⟩
  · intro p hp
    rw [matrixPoints] at hp
    split at hp
    · cases hp
    · rcases List.mem_append.mp hp with hpos | hzero
      · rcases List.mem_map.mp hpos with ⟨c, hc, rfl⟩
        refine ⟨?_, ?_, ?_⟩
        · exact calculateRelativePosition_bounds c.cv (matrixCtx data).avgCV
        · show -100 ≤ posYPosition (matrixCtx data) c.profit ∧
            posYPosition (matrixCtx data) c.profit ≤ 100
          by_cases hsign : 0 ≤ c.profit
          · obtain ⟨h1, h2⟩ := posYPosition_nonneg_bounds hc hsign
            constructor <;> linarith
          · obtain ⟨h1, h2⟩ := posYPosition_neg_bounds hc (not_le.mp hsign)
            constructor <;> linarith
        · exact calculateBubbleSize_bounds c.roas (matrixCtx data).avgROAS
      · rw [cvZeroPoints] at hzero
        split at hzero
        · rcases List.mem_map.mp hzero with ⟨c, hc, rfl⟩
          refine ⟨by norm_num [mkZeroPoint], ?_, by norm_num [mkZeroPoint]⟩
          obtain ⟨h1, h2⟩ := mkZeroPoint_y_bounds hc
          constructor <;> linarith
        · cases hzero
  · intro c hc hp
    refine ⟨posYPosition_nonneg_bounds hc (le_of_lt hp), fun hr => ?_, fun hr => ?_⟩
    · show posYPosition (matrixCtx data) c.profit = _
      rw [posYPosition, if_pos (le_of_lt hp), if_neg hr]
    · show posYPosition (matrixCtx data) c.profit = 50
      rw [posYPosition, if_pos (le_of_lt hp), if_pos hr]
  · intro c hc hp
    refine ⟨posYPosition_neg_bounds hc hp, fun hr => ?_, fun hr => ?_⟩
    · show posYPosition (matrixCtx data) c.profit = _
      rw [posYPosition, if_neg (not_le.mpr hp), if_neg hr]
    · show posYPosition (matrixCtx data) c.profit = -50
      rw [posYPosition, if_neg (not_le.mpr hp), if_pos hr]

/-- Concrete cv-positive profitable creative for the C6 witness. -/
def c6Row : AggregatedCreative :=
  { creativeName := "A", creativeLink := "", adCount := 1, impressions := 1000
    cv := 2, cost := 50, revenue := 150, profit := 100
    cpm := 50, cpa := 25, roas := 300 }

lemma c6Row_mem : c6Row ∈ cvPositiveData [c6Row] := by
  rw [cvPositiveData]
  refine List.mem_filter.mpr ⟨List.mem_singleton_self _, ?_⟩
  norm_num [c6Row]

/-- Witness for C6: the single profitable creative's bubble is mapped to the
midpoint `y = 50` and all its coordinates are within the clamped ranges. -/
theorem matrix_clamping_witness :
    ((5 ≤ (mkPosPoint (matrixCtx [c6Row]) c6Row).y ∧
        (mkPosPoint (matrixCtx [c6Row]) c6Row).y ≤ 95)
      ∧ ((matrixCtx [c6Row]).maxProfit - (matrixCtx [c6Row]).minProfitInProfitable ≠ 0 →
          (mkPosPoint (matrixCtx [c6Row]) c6Row).y
            = 5 + (c6Row.profit - (matrixCtx [c6Row]).minProfitInProfitable)
                / ((matrixCtx [c6Row]).maxProfit - (matrixCtx [c6Row]).minProfitInProfitable) * 90)
      ∧ ((matrixCtx [c6Row]).maxProfit - (matrixCtx [c6Row]).minProfitInProfitable = 0 →
          (mkPosPoint (matrixCtx [c6Row]) c6Row).y = 50)) :=
  (matrix_clamping [c6Row]).2.1 c6Row c6Row_mem (by norm_num [c6Row])

lemma cvZeroPoints_eq_map {data : List AggregatedCreative}
    (h : 0 < (cvZeroData data).length) :
    cvZeroPoints data
      = (cvZeroData data).map (mkZeroPoint (zeroProfitMax data) (zeroProfitMin data)) := by
  rw [cvZeroPoints, if_pos h]

lemma cvZeroPoints_pinned {data : List AggregatedCreative} {p : BubblePoint}
    (hp : p ∈ cvZeroPoints data) : p.x = -95 ∧ p.cv = 0 ∧ p.profit < 0 := by
  rw [cvZeroPoints] at hp
  split at hp
  · rcases List.mem_map.mp hp with ⟨c, hc, rfl⟩
    obtain ⟨-, hcv, -, hprof⟩ := mem_cvZeroData hc
    exact ⟨rfl, hcv, hprof⟩
  · cases hp

lemma avgCV_pos {data : List AggregatedCreative} {c : AggregatedCreative}
    (hc : c ∈ cvPositiveData data) : 0 < (matrixCtx data).avgCV := by
  have hlen : 0 < (cvPositiveData data).length :=
    List.length_pos.mpr (List.ne_nil_of_mem hc)
  have hsum : 0 < ((cvPositiveData data).map (·.cv)).sum := by
    apply List.sum_pos
    · intro x hx
      rcases List.mem_map.mp hx with ⟨c', hc', rfl⟩
      exact (mem_cvPositiveData hc').2.1
    · intro h
      exact (List.ne_nil_of_mem hc) (List.map_eq_nil_iff.mp h)
  simp only [matrixCtx, hlen, if_pos]
  exact div_pos hsum (by exact_mod_cast hlen)

lemma mkPosPoint_x_gt_neg50 {data : List AggregatedCreative} {c : AggregatedCreative}
    (hc : c ∈ cvPositiveData data) : -50 < (mkPosPoint (matrixCtx data) c).x := by
  have havg : 0 < (matrixCtx data).avgCV := avgCV_pos hc
  have hcv : 0 < c.cv := (mem_cvPositiveData hc).2.1
  show -50 < calculateRelativePosition c.cv (matrixCtx data).avgCV false
  rw [calculateRelativePosition, if_neg (ne_of_gt havg)]
  simp only [Bool.false_eq_true, if_false]
  have hdiv : 0 < c.cv / (matrixCtx data).avgCV := div_pos hcv havg
  have h1 : (-50 : ℚ) < (c.cv / (matrixCtx data).avgCV - 1) * 50 := by nlinarith
  exact lt_of_lt_of_le (lt_min (by norm_num) h1) (le_max_right _ _)

/-- A creative with `cv > 0` but `cost = 0`. -/
def c7Row : AggregatedCreative :=
  { creativeName := "X", creativeLink := "", adCount := 1, impressions := 10
    cv := 1, cost := 0, revenue := 0, profit := 10
    cpm := 0, cpa := 0, roas := 0 }

/-- C7 counterexample: the input holds exactly one creative with `cv > 0`,
yet `matrixPoints` produces no bubble at all, because the source's filter
also requires `cost > 0`.  This refutes "exactly one BubblePoint for every
input creative with cv > 0" as stated. -/
theorem matrix_point_per_creative_cex :
    (([c7Row].filter (fun c => decide (0 < c.cv))).length = 1)
      ∧ (matrixPoints [c7Row]).length = 0 := by
  constructor
  · norm_num [c7Row]
  · norm_num [matrixPoints, cvPositiveData, cvZeroData, c7Row]

/-- C7 (amended): the matrix chart produces exactly one bubble per input
creative with `cv > 0` and `cost > 0` (in input order, carrying the
creative's name), plus the pinned sub-population of creatives with `cv = 0`,
`cost > 0` and `profit < 0`; pinned points sit at `x = -95` in the lower
half, are stacked monotonically by profit, and a single pinned creative is
placed at the midpoint `y = -75`. -/
theorem matrix_points_structure (data : List AggregatedCreative) :
    ((matrixPoints data).map (·.creativeName)
      = (cvPositiveData data).map (·.creativeName)
        ++ (cvZeroData data).map (·.creativeName))
  ∧ ((matrixPoints data).length
      = (cvPositiveData data).length + (cvZeroData data).length)
  ∧ (∀ p ∈ cvZeroPoints data, p.x = -95 ∧ p.cv = 0 ∧ p.profit < 0)
  ∧ (∀ c₁ ∈ cvZeroData data, ∀ c₂ ∈ cvZeroData data, c₁.profit ≤ c₂.profit →
      (mkZeroPoint (zeroProfitMax data) (zeroProfitMin data) c₁).y
        ≤ (mkZeroPoint (zeroProfitMax data) (zeroProfitMin data) c₂).y)
  ∧ ((cvZeroData data).length = 1 → ∀ p ∈ cvZeroPoints data, p.y = -75) := by
  have hnames : (matrixPoints data).map (·.creativeName)
      = (cvPositiveData data).map (·.creativeName)
        ++ (cvZeroData data).map (·.creativeName) := by
    rw [matrixPoints]
    split
    · rename_i h
      rw [List.length_eq_zero.mp h.1, List.length_eq_zero.mp h.2]
      simp
    · rw [List.map_append, cvPositivePoints]
      congr 1
      · rw [List.map_map]; rfl
      · rw [cvZeroPoints]
        split
        · rw [List.map_map]; rfl
        · rename_i h2
          have : (cvZeroData data).length = 0 := by omega
          rw [List.length_eq_zero.mp this]
          simp
  refine ⟨hnames, ?_, fun p hp => cvZeroPoints_pinned hp, ?_, ?_⟩
  · have := congrArg List.length hnames
    simpa using this
  · intro c₁ hc₁ c₂ hc₂ hle
    by_cases hr : zeroProfitMax data - zeroProfitMin data = 0
    · simp [mkZeroPoint, hr]
    · obtain ⟨hlo₁, hhi₁⟩ := zero_profit_bounds hc₁
      have hpos : 0 < zeroProfitMax data - zeroProfitMin data :=
        lt_of_le_of_ne (by linarith) (Ne.symm hr)
      simp only [mkZeroPoint, hr, if_false]
      have hd : (c₁.profit - zeroProfitMin data) / (zeroProfitMax data - zeroProfitMin data)
          ≤ (c₂.profit - zeroProfitMin data) / (zeroProfitMax data - zeroProfitMin data) :=
        div_le_div_of_nonneg_right (by linarith) hpos.le
      linarith
  · intro hlen p hp
    rcases List.length_eq_one.mp hlen with ⟨c, hc⟩
    rw [cvZeroPoints, if_pos (by omega)] at hp
    rcases List.mem_map.mp hp with ⟨c', hc', rfl⟩
    have hmax : zeroProfitMax data = c.profit := by
      rw [zeroProfitMax, hc]; rfl
    have hmin : zeroProfitMin data = c.profit := by
      rw [zeroProfitMin, hc]; rfl
    simp [mkZeroPoint, hmax, hmin]

/-- Concrete pinned creative (cv = 0, losing money) for the C7 witness. -/
def c7Pinned : AggregatedCreative :=
  { creativeName := "L", creativeLink := "", adCount := 1, impressions := 100
    cv := 0, cost := 200, revenue := 0, profit := -200
    cpm := 2000, cpa := 0, roas := 0 }

lemma c7Pinned_mem : c7Pinned ∈ cvZeroData [c7Pinned] := by
  rw [cvZeroData]
  refine List.mem_filter.mpr ⟨List.mem_singleton_self _, ?_⟩
  norm_num [c7Pinned]

/-- Witness for the amended C7: a lone pinned creative is placed at the
midpoint `y = -75` of the stalled-loss band. -/
theorem matrix_points_structure_witness :
    (mkZeroPoint (zeroProfitMax [c7Pinned]) (zeroProfitMin [c7Pinned]) c7Pinned).y = -75 := by
  have hlen : (cvZeroData [c7Pinned]).length = 1 := by
    have : cvZeroData [c7Pinned] = [c7Pinned] := by
      rw [cvZeroData]
      simp only [List.filter]
      norm_num [c7Pinned]
    rw [this]
    rfl
  apply (matrix_points_structure [c7Pinned]).2.2.2.2 hlen
  rw [cvZeroPoints_eq_map (by omega)]
  exact List.mem_map.mpr ⟨c7Pinned, c7Pinned_mem, rfl⟩

/-- C10: the x-coordinate of every cv-positive bubble is strictly greater
than -50 (before clamping, `cv / meanCV > 0` forces `(r - 1) * 50 > -50`),
so the pinned left edge `x = -95` is occupied only by the cv-zero,
negative-profit points; the two populations never overlap in x. -/
theorem cvpos_never_at_left_edge (data : List AggregatedCreative) :
    (∀ c ∈ cvPositiveData data, -50 < (mkPosPoint (matrixCtx data) c).x)
  ∧ (∀ p ∈ matrixPoints data, p.x = -95 → p.cv = 0 ∧ p.profit < 0) := by
  refine ⟨fun c hc => mkPosPoint_x_gt_neg50 hc, fun p hp hx => ?_⟩
  rw [matrixPoints] at hp
  split at hp
  · cases hp
  · rcases List.mem_append.mp hp with hpos | hzero
    · rcases List.mem_map.mp hpos with ⟨c, hc, rfl⟩
      have := mkPosPoint_x_gt_neg50 hc
      rw [hx] at this
      norm_num at this
    · exact (cvZeroPoints_pinned hzero).2

/-- Witness for C10: the single cv-positive creative's bubble sits strictly
to the right of x = -50. -/
theorem cvpos_never_at_left_edge_witness :
    -50 < (mkPosPoint (matrixCtx [c6Row]) c6Row).x :=
  (cvpos_never_at_left_edge [c6Row]).1 c6Row c6Row_mem

/-! ## Stacked chart pointer hit-test (`DailyProfitChart.handleNativeMouseMove`)

Chart margins are `{left: 20, right: 30}` and the rendered y-axis is 60px
wide, so the plot area spans `[80, containerWidth - 30]` horizontally. -/

/-- The pointer-to-day-index mapping: no hit when the chart is empty, the
horizontal offset is outside the plot band, or the plot width is
non-positive; otherwise `floor(relativeX / chartWidth * numDays)` clamped to
`[0, numDays - 1]`. -/
def stackedHitTest (containerWidth : ℚ) (numDays : ℕ) (x : ℚ) : Option ℕ :=
  if numDays = 0 then none
  else
    let chartLeft : ℚ := 20 + 60
    let chartRight : ℚ := containerWidth - 30
    let chartWidth : ℚ := chartRight - chartLeft
    if x < chartLeft ∨ x > chartRight ∨ chartWidth ≤ 0 then none
    else
      some (max 0 (min ((numDays : ℤ) - 1)
        ⌊(x - chartLeft) / chartWidth * numDays⌋)).toNat

/-- C4: stacked hit-test exactness.  A pointer whose horizontal offset is
outside the plot band yields no hit; inside a non-degenerate plot the day
index is `floor((x - plotLeft) / plotWidth * numDays)` clamped to
`[0, numDays - 1]`; and a pointer anywhere in the k-th uniform column —
including exactly on its left boundary — resolves to index k, with no
off-by-one. -/
theorem stacked_hit_exactness (w x : ℚ) (n k : ℕ) :
    ((x < 80 ∨ x > w - 30 ∨ w - 30 - 80 ≤ 0) → stackedHitTest w n x = none)
  ∧ (n ≠ 0 → ¬(x < 80 ∨ x > w - 30 ∨ w - 30 - 80 ≤ 0) →
      stackedHitTest w n x
        = some (max 0 (min ((n : ℤ) - 1) ⌊(x - 80) / (w - 30 - 80) * n⌋)).toNat)
  ∧ (k < n → 0 < w - 30 - 80 →
      80 + k * ((w - 30 - 80) / n) ≤ x → x < 80 + (k + 1) * ((w - 30 - 80) / n) →
      stackedHitTest w n x = some k) := by
  refine ⟨fun hout => ?_, fun hn hin => ?_, fun hk hcw hx1 hx2 => ?_⟩
  · rw [stackedHitTest]
    split
    · rfl
    · rw [if_pos]
      show x < 20 + 60 ∨ x > w - 30 ∨ w - 30 - (20 + 60) ≤ 0
      rcases hout with h | h | h
      · exact Or.inl (by linarith)
      · exact Or.inr (Or.inl h)
      · exact Or.inr (Or.inr (by linarith))
  · rw [stackedHitTest, if_neg hn, if_neg]
    · norm_num
    · show ¬(x < 20 + 60 ∨ x > w - 30 ∨ w - 30 - (20 + 60) ≤ 0)
      push_neg at hin ⊢
      exact ⟨by linarith [hin.1], hin.2.1, by linarith [hin.2.2]⟩
  · have hn : 0 < n := lt_of_le_of_lt (Nat.zero_le k) hk
    have hnq : (0 : ℚ) < n := by exact_mod_cast hn
    have hcw' : (0 : ℚ) < (w - 30 - 80) / n := div_pos hcw hnq
    have hk1 : ((k : ℚ) + 1) ≤ n := by exact_mod_cast hk
    have hxlo : (80 : ℚ) ≤ x := by
      have : (0 : ℚ) ≤ k * ((w - 30 - 80) / n) :=
        mul_nonneg (Nat.cast_nonneg k) hcw'.le
      linarith
    have hxhi : x ≤ w - 30 := by
      have h1 : ((k : ℚ) + 1) * ((w - 30 - 80) / n) ≤ n * ((w - 30 - 80) / n) :=
        mul_le_mul_of_nonneg_right hk1 hcw'.le
      have h2 : (n : ℚ) * ((w - 30 - 80) / n) = w - 30 - 80 :=
        mul_div_cancel₀ _ (ne_of_gt hnq)
      linarith
    have hfl : ⌊(x - 80) / (w - 30 - 80) * n⌋ = (k : ℤ) := by
      have h1 : (k : ℚ) ≤ (x - 80) / (w - 30 - 80) * n := by
        rw [div_mul_eq_mul_div, le_div_iff₀ hcw]
        have h := mul_le_mul_of_nonneg_right
          (by linarith : (k : ℚ) * ((w - 30 - 80) / n) ≤ x - 80) hnq.le
        have he : (k : ℚ) * ((w - 30 - 80) / n) * n = k * (w - 30 - 80) := by
          field_simp
        rw [he] at h
        linarith
      have h2 : (x - 80) / (w - 30 - 80) * n < (k : ℚ) + 1 := by
        rw [div_mul_eq_mul_div, div_lt_iff₀ hcw]
        have h := mul_lt_mul_of_pos_right
          (by linarith : x - 80 < ((k : ℚ) + 1) * ((w - 30 - 80) / n)) hnq
        have he : ((k : ℚ) + 1) * ((w - 30 - 80) / n) * n
            = ((k : ℚ) + 1) * (w - 30 - 80) := by
          field_simp
        rw [he] at h
        linarith
      rw [Int.floor_eq_iff]
      refine ⟨by push_cast; exact h1, by push_cast; exact h2⟩
    rw [stackedHitTest, if_neg hn.ne', if_neg]
    · show some (max 0 (min ((n : ℤ) - 1)
        ⌊(x - (20 + 60)) / (w - 30 - (20 + 60)) * n⌋)).toNat = some k
      have he : (x - (20 + 60) : ℚ) / (w - 30 - (20 + 60)) * n
          = (x - 80) / (w - 30 - 80) * n := by norm_num
      rw [he, hfl]
      have hk' : (k : ℤ) ≤ (n : ℤ) - 1 := by
        have : (k : ℤ) < n := by exact_mod_cast hk
        omega
      rw [min_eq_right hk', max_eq_right (Int.ofNat_nonneg k)]
      simp
    · show ¬(x < 20 + 60 ∨ x > w - 30 ∨ w - 30 - (20 + 60) ≤ 0)
      push_neg
      exact ⟨by linarith, hxhi, by linarith⟩

/-- Witness for C4: container width 510 gives a 400px plot; with 10 days a
pointer exactly at the boundary `x = 200 = 80 + 3·40` resolves to day 3. -/
theorem stacked_hit_exactness_witness : stackedHitTest 510 10 200 = some 3 :=
  (stacked_hit_exactness 510 200 10 3).2.2 (by norm_num) (by norm_num)
    (by norm_num) (by norm_num)

/-! ## Matrix scatter hit-test (`MatrixChart.tsx`, `getHitRadius` and
`handleNativeMouseMove`)

`getHitRadius` computes `Math.sqrt(area / Math.PI)`, so this component is
modelled over ℝ. -/

/-- `getHitRadius`: invert the bubble-area scale (ZAxis range [60, 600] over
z-domain [0.5, 2.0]) back to a radius via `area = π·r²`, add 8px padding,
and floor the result at a 20px minimum so small bubbles stay clickable. -/
noncomputable def getHitRadius (z : ℝ) : ℝ :=
  max 20 (Real.sqrt ((60 + (z - 1/2) / (3/2) * (600 - 60)) / Real.pi) + 8)

/-- The fields of a rendered bubble the hit-test loop consults. -/
structure HitPoint where
  creativeName : String
  x : ℝ
  y : ℝ
  z : ℝ

/-- Forward pixel mapping of a bubble's x: `chartLeft + (x + 100)/200 · chartWidth`
with `chartLeft = 60 + 63` (margin plus measured recharts axis width). -/
noncomputable def pointPixelX (cw : ℝ) (p : HitPoint) : ℝ :=
  (60 + 63) + (p.x + 100) / 200 * (cw - 60 - 40 - 63)

/-- Forward pixel mapping of a bubble's y: `chartTop + (100 - y)/200 · chartHeight`
with `chartTop = 40 + 9`. -/
noncomputable def pointPixelY (ch : ℝ) (p : HitPoint) : ℝ :=
  (40 + 9) + (100 - p.y) / 200 * (ch - 40 - 60 - 9 - 30)

/-- Squared pixel distance from the pointer to a bubble's mapped position. -/
noncomputable def distSq (cw ch mx my : ℝ) (p : HitPoint) : ℝ :=
  (mx - pointPixelX cw p) * (mx - pointPixelX cw p)
    + (my - pointPixelY ch p) * (my - pointPixelY ch p)

/-- The running `closestDistSq` bound: `none` models the initial `Infinity`. -/
def beatsClosest (d : ℝ) : Option (HitPoint × ℝ) → Prop
  | none => True
  | some pr => d < pr.2

open Classical in
/-- One iteration of the nearest-candidate loop:
`distSq < closestDistSq && distSq < hitRadius²` updates the best candidate. -/
noncomputable def hitStep (cw ch mx my : ℝ) (acc : Option (HitPoint × ℝ))
    (p : HitPoint) : Option (HitPoint × ℝ) :=
  if beatsClosest (distSq cw ch mx my p) acc ∧
      distSq cw ch mx my p < getHitRadius p.z * getHitRadius p.z
  then some (p, distSq cw ch mx my p) else acc

open Classical in
/-- `handleNativeMouseMove`'s candidate search: no hit when there are no
points or the measured plot area is degenerate, else fold the loop. -/
noncomputable def matrixHitTest (cw ch mx my : ℝ) (points : List HitPoint) :
    Option HitPoint :=
  if points = [] then none
  else if cw - 60 - 40 - 63 ≤ 0 ∨ ch - 40 - 60 - 9 - 30 ≤ 0 then none
  else (points.foldl (hitStep cw ch mx my) none).map Prod.fst

lemma distSq_nonneg (cw ch mx my : ℝ) (p : HitPoint) :
    0 ≤ distSq cw ch mx my p :=
  add_nonneg (mul_self_nonneg _) (mul_self_nonneg _)

lemma getHitRadius_sq_pos (z : ℝ) : 0 < getHitRadius z * getHitRadius z := by
  have h20 : (20 : ℝ) ≤ getHitRadius z := le_max_left _ _
  nlinarith

lemma hitStep_sound (cw ch mx my : ℝ) (acc : Option (HitPoint × ℝ)) (p : HitPoint)
    (hacc : ∀ q d, acc = some (q, d) →
      d = distSq cw ch mx my q ∧ d < getHitRadius q.z * getHitRadius q.z) :
    ∀ q d, hitStep cw ch mx my acc p = some (q, d) →
      d = distSq cw ch mx my q ∧ d < getHitRadius q.z * getHitRadius q.z := by
  intro q d h
  rw [hitStep] at h
  split at h
  · rename_i hcond
    rw [Option.some.injEq, Prod.mk.injEq] at h
    obtain ⟨rfl, rfl⟩ := h
    exact ⟨rfl, hcond.2⟩
  · exact hacc q d h

lemma hitFold_sound (cw ch mx my : ℝ) (points : List HitPoint) :
    ∀ acc, (∀ q d, acc = some (q, d) →
        d = distSq cw ch mx my q ∧ d < getHitRadius q.z * getHitRadius q.z) →
      ∀ q d, points.foldl (hitStep cw ch mx my) acc = some (q, d) →
        d = distSq cw ch mx my q ∧ d < getHitRadius q.z * getHitRadius q.z := by
  induction points with
  | nil => intro acc hacc q d h; exact hacc q d h
  | cons r rs ih =>
      intro acc hacc q d h
      rw [List.foldl_cons] at h
      exact ih _ (hitStep_sound cw ch mx my acc r hacc) q d h

lemma hitFold_all_fail (cw ch mx my : ℝ) (points : List HitPoint)
    (hfail : ∀ p ∈ points,
      ¬ distSq cw ch mx my p < getHitRadius p.z * getHitRadius p.z) :
    points.foldl (hitStep cw ch mx my) none = none := by
  induction points with
  | nil => rfl
  | cons r rs ih =>
      rw [List.foldl_cons]
      have hstep : hitStep cw ch mx my none r = none := by
        rw [hitStep]
        split
        · rename_i hcond
          exact absurd hcond.2 (hfail r (List.mem_cons_self r rs))
        · rfl
      rw [hstep]
      exact ih (fun p hp => hfail p (List.mem_cons_of_mem r hp))

lemma hitFold_keeps_nonpos (cw ch mx my : ℝ) (points : List HitPoint) :
    ∀ q dq, dq ≤ 0 →
      ∃ q2 d2, points.foldl (hitStep cw ch mx my) (some (q, dq)) = some (q2, d2) ∧
        d2 ≤ 0 := by
  induction points with
  | nil => intro q dq h; exact ⟨q, dq, rfl, h⟩
  | cons r rs ih =>
      intro q dq h
      rw [List.foldl_cons]
      have hstep : hitStep cw ch mx my (some (q, dq)) r = some (q, dq) := by
        rw [hitStep]
        split
        · rename_i hcond
          have h1 : distSq cw ch mx my r < dq := hcond.1
          exact absurd h1 (not_lt.mpr (le_trans h (distSq_nonneg cw ch mx my r)))
        · rfl
      rw [hstep]
      exact ih q dq h

lemma hitStep_keeps_shape (cw ch mx my : ℝ) (acc : Option (HitPoint × ℝ))
    (p : HitPoint)
    (hacc : acc = none ∨ ∃ q dq, acc = some (q, dq) ∧ 0 ≤ dq) :
    hitStep cw ch mx my acc p = none ∨
      ∃ q dq, hitStep cw ch mx my acc p = some (q, dq) ∧ 0 ≤ dq := by
  rw [hitStep]
  split
  · exact Or.inr ⟨p, _, rfl, distSq_nonneg cw ch mx my p⟩
  · exact hacc

lemma hitFold_hits (cw ch mx my : ℝ) (points : List HitPoint) (p : HitPoint)
    (hp : p ∈ points) (hd : distSq cw ch mx my p = 0) :
    ∀ acc, (acc = none ∨ ∃ q dq, acc = some (q, dq) ∧ 0 ≤ dq) →
      ∃ q2 d2, points.foldl (hitStep cw ch mx my) acc = some (q2, d2) ∧ d2 ≤ 0 := by
  induction points with
  | nil => cases hp
  | cons r rs ih =>
      intro acc hacc
      rw [List.foldl_cons]
      rcases List.mem_cons.mp hp with rfl | hmem
      · rcases hacc with rfl | ⟨q, dq, rfl, hdq⟩
        · have hstep : hitStep cw ch mx my none p = some (p, distSq cw ch mx my p) := by
            rw [hitStep]
            split
            · rfl
            · rename_i hcond
              exact absurd ⟨trivial, by rw [hd]; exact getHitRadius_sq_pos p.z⟩ hcond
          rw [hstep]
          exact hitFold_keeps_nonpos cw ch mx my rs p _ (le_of_eq hd)
        · rcases lt_or_le 0 dq with hpos | hle
          · have hstep : hitStep cw ch mx my (some (q, dq)) p
                = some (p, distSq cw ch mx my p) := by
              rw [hitStep]
              split
              · rfl
              · rename_i hcond
                refine absurd ⟨?_, ?_⟩ hcond
                · show distSq cw ch mx my p < dq
                  rw [hd]; exact hpos
                · rw [hd]; exact getHitRadius_sq_pos p.z
            rw [hstep]
            exact hitFold_keeps_nonpos cw ch mx my rs p _ (le_of_eq hd)
          · have hstep : hitStep cw ch mx my (some (q, dq)) p = some (q, dq) := by
              rw [hitStep]
              split
              · rename_i hcond
                have h1 : distSq cw ch mx my p < dq := hcond.1
                rw [hd] at h1
                exact absurd h1 (not_lt.mpr hle)
              · rfl
            rw [hstep]
            exact hitFold_keeps_nonpos cw ch mx my rs q dq hle
      · exact ih hmem _ (hitStep_keeps_shape cw ch mx my acc r hacc)

/-- C5: matrix hit-test soundness.  The search reports a point only when the
squared pixel distance from the pointer to that point is strictly below the
point's own hit-radius squared; when no candidate passes its radius test
the result is "no hit" (even for the nearest candidate); and a pointer
placed exactly at a point's computed pixel center always produces a hit,
whose reported point is at pixel distance zero. -/
theorem matrix_hit_soundness (cw ch mx my : ℝ) (points : List HitPoint) :
    (∀ q, matrixHitTest cw ch mx my points = some q →
        distSq cw ch mx my q < getHitRadius q.z * getHitRadius q.z)
  ∧ ((∀ p ∈ points,
        ¬ distSq cw ch mx my p < getHitRadius p.z * getHitRadius p.z) →
      matrixHitTest cw ch mx my points = none)
  ∧ (∀ p ∈ points, 0 < cw - 60 - 40 - 63 → 0 < ch - 40 - 60 - 9 - 30 →
      mx = pointPixelX cw p → my = pointPixelY ch p →
      ∃ q, matrixHitTest cw ch mx my points = some q ∧ distSq cw ch mx my q = 0) := by
  refine ⟨fun q hq => ?_, fun hfail => ?_, fun p hp hw hh hmx hmy => ?_⟩
  · rw [matrixHitTest] at hq
    split at hq
    · cases hq
    · split at hq
      · cases hq
      · rcases Option.map_eq_some'.mp hq with ⟨⟨q', d⟩, hfold, hfst⟩
        cases hfst
        have hs := hitFold_sound cw ch mx my points none
          (by intro q d h; cases h) q' d hfold
        show distSq cw ch mx my q' < getHitRadius q'.z * getHitRadius q'.z
        rw [← hs.1]
        exact hs.2
  · rw [matrixHitTest]
    split
    · rfl
    · split
      · rfl
      · rw [hitFold_all_fail cw ch mx my points hfail]
        rfl
  · have hzero : distSq cw ch mx my p = 0 := by
      rw [distSq, ← hmx, ← hmy]
      ring
    obtain ⟨q2, d2, hfold, hle⟩ :=
      hitFold_hits cw ch mx my points p hp hzero none (Or.inl rfl)
    have hsound := hitFold_sound cw ch mx my points none
      (by intro q d h; cases h) q2 d2 hfold
    have hd2 : d2 = 0 :=
      le_antisymm hle (hsound.1 ▸ distSq_nonneg cw ch mx my q2)
    refine ⟨q2, ?_, by rw [← hsound.1, hd2]⟩
    rw [matrixHitTest, if_neg (List.ne_nil_of_mem hp), if_neg (by push_neg; exact ⟨hw, hh⟩),
      hfold]
    rfl

/-- Concrete bubble for the C5 witness. -/
def c5Point : HitPoint := { creativeName := "P", x := 0, y := 0, z := 1 }

/-- Witness for C5: in an 800×500 container, the pointer placed exactly at
the bubble's computed pixel center is a hit at distance zero. -/
theorem matrix_hit_soundness_witness :
    ∃ q, matrixHitTest 800 500 (pointPixelX 800 c5Point) (pointPixelY 500 c5Point)
        [c5Point] = some q ∧
      distSq 800 500 (pointPixelX 800 c5Point) (pointPixelY 500 c5Point) q = 0 :=
  (matrix_hit_soundness 800 500 (pointPixelX 800 c5Point) (pointPixelY 500 c5Point)
      [c5Point]).2.2 c5Point (List.mem_singleton_self _)
    (by norm_num) (by norm_num) rfl rfl

/-! ## Daily profit stacked chart pipeline (`DailyProfitChart`'s `chartData`
useMemo): per-day profit buckets, global color ranking, slot assignment. -/

/-- A record as consumed by the daily chart (profit is read directly). -/
structure DailyRecord where
  date : String
  creativeName : String
  creativeLink : String
  profit : ℚ
deriving DecidableEq

/-- `item.date.replace(/\//g, '-')`. -/
def normDate (s : String) : String := s.replace "/" "-"

/-- `item.creativeName || '(未分類)'`. -/
def dispKey (r : DailyRecord) : String :=
  if r.creativeName = "" then "(未分類)" else r.creativeName

/-- `dayData.set(name, (dayData.get(name) || 0) + item.profit)` on an
insertion-ordered map. -/
def upsertDay : List (String × ℚ) → String → ℚ → List (String × ℚ)
  | [], n, p => [(n, p)]
  | (m, q) :: rest, n, p =>
      if m = n then (m, q + p) :: rest else (m, q) :: upsertDay rest n p

/-- One record folded into `dailyMap`. -/
def upsertDaily : List (String × List (String × ℚ)) → DailyRecord →
    List (String × List (String × ℚ))
  | [], r => [(normDate r.date, upsertDay [] (dispKey r) r.profit)]
  | (d, m) :: rest, r =>
      if d = normDate r.date then (d, upsertDay m (dispKey r) r.profit) :: rest
      else (d, m) :: upsertDaily rest r

/-- `dailyMap`: (date, per-creative profit) buckets; records with an empty
date are skipped. -/
def buildDailyMap (rs : List DailyRecord) : List (String × List (String × ℚ)) :=
  rs.foldl (fun acc r => if r.date = "" then acc else upsertDaily acc r) []

/-- Insertion-ordered `creativeSet` (dated records only). -/
def creativeSet (rs : List DailyRecord) : List String :=
  rs.foldl (fun acc r =>
    if r.date = "" then acc
    else if dispKey r ∈ acc then acc else acc ++ [dispKey r]) []

/-- `creativeLinkMap`: the first non-empty link seen per creative. -/
def linkMapOf (rs : List DailyRecord) : List (String × String) :=
  rs.foldl (fun acc r =>
    if r.date = "" then acc
    else if r.creativeLink ≠ "" ∧ acc.find? (fun e => decide (e.1 = dispKey r)) = none
    then acc ++ [(dispKey r, r.creativeLink)] else acc) []

/-- `map.get(key)` with a default (JS `map.get(k) || dflt`). -/
def lookupD {α : Type} (m : List (String × α)) (n : String) (dflt : α) : α :=
  match m.find? (fun e => decide (e.1 = n)) with
  | some e => e.2
  | none => dflt

/-- `creativeProfitTotals`: a creative's profit summed over every day bucket. -/
def totalProfitOf (rs : List DailyRecord) (n : String) : ℚ :=
  ((buildDailyMap rs).map (fun d => lookupD d.2 n 0)).sum

/-- `sortedCreatives`: the creative set ranked by total profit, descending
(stable sort, ties by insertion order). -/
def sortedCreatives (rs : List DailyRecord) : List String :=
  (creativeSet rs).mergeSort
    (fun a b => decide (totalProfitOf rs b ≤ totalProfitOf rs a))

/-- The fixed 15-color palette. -/
def COLORS : List String :=
  ["#0b7f7b", "#3b82f6", "#8b5cf6", "#ec4899", "#f59e0b",
   "#10b981", "#6366f1", "#ef4444", "#14b8a6", "#f97316",
   "#84cc16", "#06b6d4", "#a855f7", "#22c55e", "#eab308"]

/-- `colorMap[name] = COLORS[index % COLORS.length]` for `name` at `index`
of `sortedCreatives` (names outside the ranking get the empty string —
unreachable for names appearing in any day bucket). -/
def colorOf (rs : List DailyRecord) (n : String) : String :=
  match (sortedCreatives rs).findIdx? (fun m => decide (m = n)) with
  | some i => COLORS.getD (i % COLORS.length) ""
  | none => ""

/-- The `pos_i_data` / `neg_i_data` payload attached to each rendered lane. -/
structure SlotData where
  value : ℚ
  name : String
  link : String
  color : String
  slotIndex : ℕ
  side : String
deriving DecidableEq

/-- One processed day of `chartData` (slot fields gathered into lists). -/
structure DayChart where
  date : String
  displayDate : String
  total : ℚ
  posSlots : List SlotData
  negSlots : List SlotData
deriving DecidableEq

/-- `dayCreatives`: the day's entries minus zero-profit creatives
(`.filter(c => c.profit !== 0)`). -/
def dayCreativesOf (d : String × List (String × ℚ)) : List (String × ℚ) :=
  d.2.filter (fun e => decide (e.2 ≠ 0))

/-- `positives`: positive-profit entries sorted descending by profit. -/
def dayPositives (d : String × List (String × ℚ)) : List (String × ℚ) :=
  ((dayCreativesOf d).filter (fun e => decide (0 < e.2))).mergeSort
    (fun a b => decide (b.2 ≤ a.2))

/-- `negatives`: negative-profit entries sorted descending by profit
(i.e. closest to zero first). -/
def dayNegatives (d : String × List (String × ℚ)) : List (String × ℚ) :=
  ((dayCreativesOf d).filter (fun e => decide (e.2 < 0))).mergeSort
    (fun a b => decide (b.2 ≤ a.2))

/-- The positive lane for sort rank `ie.1`: slot index `count - 1 - rank`,
so the largest value gets the highest slot (rendered topmost). -/
def posSlotAt (rs : List DailyRecord) (P : List (String × ℚ))
    (ie : ℕ × (String × ℚ)) : SlotData :=
  { value := ie.2.2, name := ie.2.1, link := lookupD (linkMapOf rs) ie.2.1 ""
    color := colorOf rs ie.2.1, slotIndex := P.length - 1 - ie.1, side := "pos" }

/-- The negative lane for sort rank `ie.1`: slot index = rank, so the
smallest-magnitude loss sits at slot 0 next to the zero baseline. -/
def negSlotAt (rs : List DailyRecord) (ie : ℕ × (String × ℚ)) : SlotData :=
  { value := ie.2.2, name := ie.2.1, link := lookupD (linkMapOf rs) ie.2.1 ""
    color := colorOf rs ie.2.1, slotIndex := ie.1, side := "neg" }

/-- `positives.forEach((c, i) => ...)` building the positive lanes. -/
def daySlotPos (rs : List DailyRecord) (P : List (String × ℚ)) : List SlotData :=
  P.enum.map (posSlotAt rs P)

/-- `negatives.forEach((c, i) => ...)` building the negative lanes. -/
def daySlotNeg (rs : List DailyRecord) (N : List (String × ℚ)) : List SlotData :=
  N.enum.map (negSlotAt rs)

/-- Build one day's chart row. -/
def processDay (rs : List DailyRecord) (d : String × List (String × ℚ)) : DayChart :=
  { date := d.1
    displayDate := (d.1.drop 5).replace "-" "/"
    total := ((dayCreativesOf d).map (·.2)).sum
    posSlots := daySlotPos rs (dayPositives d)
    negSlots := daySlotNeg rs (dayNegatives d) }

/-- `chartData`: day buckets sorted by date ascending, each processed. -/
def chartDataOf (rs : List DailyRecord) : List DayChart :=
  ((buildDailyMap rs).mergeSort (fun a b => decide (a.1 ≤ b.1))).map (processDay rs)

lemma profitDesc_pairwise (l : List (String × ℚ)) :
    (l.mergeSort (fun a b => decide (b.2 ≤ a.2))).Pairwise (fun a b => b.2 ≤ a.2) := by
  have h := @List.sorted_mergeSort (String × ℚ)
    (fun a b => decide (b.2 ≤ a.2))
    (fun a b c hab hbc => by
      simp only [decide_eq_true_eq] at hab hbc ⊢
      exact le_trans hbc hab)
    (fun a b => by
      simp only [Bool.or_eq_true, decide_eq_true_eq]
      exact le_total b.2 a.2)
    l
  exact h.imp of_decide_eq_true

lemma mem_daySlotPos {rs : List DailyRecord} {P : List (String × ℚ)} {s : SlotData} :
    s ∈ daySlotPos rs P ↔ ∃ i, ∃ h : i < P.length, s = posSlotAt rs P (i, P[i]) := by
  constructor
  · intro hs
    rcases List.mem_map.mp hs with ⟨⟨i, e⟩, hie, rfl⟩
    obtain ⟨hi, he⟩ := List.mem_enum hie
    exact ⟨i, hi, by rw [he]⟩
  · rintro ⟨i, hi, rfl⟩
    refine List.mem_map.mpr ⟨(i, P.get ⟨i, hi⟩), ?_, rfl⟩
    rw [List.mem_iff_getElem]
    exact ⟨i, by simpa [List.enum_length] using hi, List.getElem_enum P i _⟩

lemma mem_daySlotNeg {rs : List DailyRecord} {N : List (String × ℚ)} {s : SlotData} :
    s ∈ daySlotNeg rs N ↔ ∃ i, ∃ h : i < N.length, s = negSlotAt rs (i, N[i]) := by
  constructor
  · intro hs
    rcases List.mem_map.mp hs with ⟨⟨i, e⟩, hie, rfl⟩
    obtain ⟨hi, he⟩ := List.mem_enum hie
    exact ⟨i, hi, by rw [he]⟩
  · rintro ⟨i, hi, rfl⟩
    refine List.mem_map.mpr ⟨(i, N.get ⟨i, hi⟩), ?_, rfl⟩
    rw [List.mem_iff_getElem]
    exact ⟨i, by simpa [List.enum_length] using hi, List.getElem_enum N i _⟩

lemma mem_dayPositives_pos {d : String × List (String × ℚ)} {e : String × ℚ}
    (he : e ∈ dayPositives d) : 0 < e.2 := by
  rw [dayPositives] at he
  have h1 := (List.mergeSort_perm _ _).mem_iff.mp he
  have h2 := List.mem_filter.mp h1
  simpa using h2.2

lemma mem_dayNegatives_neg {d : String × List (String × ℚ)} {e : String × ℚ}
    (he : e ∈ dayNegatives d) : e.2 < 0 := by
  rw [dayNegatives] at he
  have h1 := (List.mergeSort_perm _ _).mem_iff.mp he
  have h2 := List.mem_filter.mp h1
  simpa using h2.2

/-- C3: per-day slot assignment.  For every day of the stacked chart:
zero-profit creatives occupy no slot (every positive lane has value > 0,
every negative lane value < 0); a positive lane holding the single largest
profit of its day has the strictly highest slot index among that day's
positive lanes; and slot index 0 of the negative lanes always holds the
value closest to zero (the maximum of the negative values). -/
theorem slot_assignment_spec (rs : List DailyRecord) (day : DayChart)
    (hday : day ∈ chartDataOf rs) :
    (∀ s ∈ day.posSlots, 0 < s.value)
  ∧ (∀ s ∈ day.negSlots, s.value < 0)
  ∧ (∀ s ∈ day.posSlots, (∀ s2 ∈ day.posSlots, s2 ≠ s → s2.value < s.value) →
      ∀ s2 ∈ day.posSlots, s2 ≠ s → s2.slotIndex < s.slotIndex)
  ∧ (day.negSlots ≠ [] →
      ∃ s ∈ day.negSlots, s.slotIndex = 0 ∧ ∀ s2 ∈ day.negSlots, s2.value ≤ s.value) := by
  rcases List.mem_map.mp hday with ⟨dd, hdd, rfl⟩
  have hPsort : (dayPositives dd).Pairwise (fun a b => b.2 ≤ a.2) :=
    profitDesc_pairwise _
  have hNsort : (dayNegatives dd).Pairwise (fun a b => b.2 ≤ a.2) :=
    profitDesc_pairwise _
  refine ⟨?_, ?_, ?_, ?_⟩
  · intro s hs
    have hs' : s ∈ daySlotPos rs (dayPositives dd) := hs
    obtain ⟨i, hi, rfl⟩ := mem_daySlotPos.mp hs'
    exact mem_dayPositives_pos (List.getElem_mem hi)
  · intro s hs
    have hs' : s ∈ daySlotNeg rs (dayNegatives dd) := hs
    obtain ⟨i, hi, rfl⟩ := mem_daySlotNeg.mp hs'
    exact mem_dayNegatives_neg (List.getElem_mem hi)
  · intro s hs hmax s2 hs2 hne
    have hs' : s ∈ daySlotPos rs (dayPositives dd) := hs
    have hs2' : s2 ∈ daySlotPos rs (dayPositives dd) := hs2
    obtain ⟨i, hi, rfl⟩ := mem_daySlotPos.mp hs'
    obtain ⟨j, hj, rfl⟩ := mem_daySlotPos.mp hs2'
    have hi0 : i = 0 := by
      by_contra hi0
      have h0 : 0 < (dayPositives dd).length := lt_of_le_of_lt (Nat.zero_le i) hi
      have hmem0 : posSlotAt rs (dayPositives dd) (0, (dayPositives dd)[0]) ∈
          daySlotPos rs (dayPositives dd) := mem_daySlotPos.mpr ⟨0, h0, rfl⟩
      have hne0 : posSlotAt rs (dayPositives dd) (0, (dayPositives dd)[0])
          ≠ posSlotAt rs (dayPositives dd) (i, (dayPositives dd)[i]) := by
        intro h
        have hidx := congrArg SlotData.slotIndex h
        simp only [posSlotAt] at hidx
        omega
      have hlt := hmax _ hmem0 hne0
      simp only [posSlotAt] at hlt
      have hge : ((dayPositives dd)[i]).2 ≤ ((dayPositives dd)[0]).2 :=
        List.pairwise_iff_getElem.mp hPsort 0 i h0 hi (Nat.pos_of_ne_zero hi0)
      exact absurd hlt (not_lt.mpr hge)
    subst hi0
    have hj0 : j ≠ 0 := by
      intro h
      subst h
      exact hne rfl
    show (dayPositives dd).length - 1 - j < (dayPositives dd).length - 1 - 0
    omega
  · intro hne
    have hne' : dayNegatives dd ≠ [] := by
      intro h
      apply hne
      show daySlotNeg rs (dayNegatives dd) = []
      rw [h]
      rfl
    have h0 : 0 < (dayNegatives dd).length := List.length_pos.mpr hne'
    refine ⟨negSlotAt rs (0, (dayNegatives dd)[0]),
      mem_daySlotNeg.mpr ⟨0, h0, rfl⟩, rfl, ?_⟩
    intro s2 hs2
    have hs2' : s2 ∈ daySlotNeg rs (dayNegatives dd) := hs2
    obtain ⟨j, hj, rfl⟩ := mem_daySlotNeg.mp hs2'
    show ((dayNegatives dd)[j]).2 ≤ ((dayNegatives dd)[0]).2
    rcases Nat.eq_zero_or_pos j with rfl | hjpos
    · exact le_refl _
    · exact List.pairwise_iff_getElem.mp hNsort 0 j h0 hj hjpos

/-- The scenario day for the C3 witness: profits +500, -100, and exactly 0. -/
def c3Recs : List DailyRecord :=
  [{ date := "2025-01-01", creativeName := "A", creativeLink := "", profit := 500 },
   { date := "2025-01-01", creativeName := "B", creativeLink := "", profit := -100 },
   { date := "2025-01-01", creativeName := "C", creativeLink := "", profit := 0 }]

/-- The witness day's bucket key. -/
def c3Key : String := normDate "2025-01-01"

/-- The witness day's per-creative profit map. -/
def c3DayMap : List (String × ℚ) := [("A", 500), ("B", -100), ("C", 0)]

lemma c3_build : buildDailyMap c3Recs = [(c3Key, c3DayMap)] := by
  simp [buildDailyMap, c3Recs, upsertDaily, upsertDay, dispKey, c3Key, c3DayMap]

lemma c3_chart : chartDataOf c3Recs = [processDay c3Recs (c3Key, c3DayMap)] := by
  rw [chartDataOf, c3_build, mergeSort_single]
  rfl

lemma c3_day_mem : processDay c3Recs (c3Key, c3DayMap) ∈ chartDataOf c3Recs := by
  rw [c3_chart]
  exact List.mem_singleton_self _

lemma c3_negatives : dayNegatives (c3Key, c3DayMap) = [("B", -100)] := by
  have hfil : (dayCreativesOf (c3Key, c3DayMap)).filter (fun e => decide (e.2 < 0))
      = [("B", -100)] := by
    norm_num [dayCreativesOf, c3DayMap, List.filter_cons, List.filter_nil]
  rw [dayNegatives, hfil]
  exact mergeSort_single _ _

lemma c3_negSlots_ne : (processDay c3Recs (c3Key, c3DayMap)).negSlots ≠ [] := by
  show daySlotNeg c3Recs (dayNegatives (c3Key, c3DayMap)) ≠ []
  rw [c3_negatives]
  simp [daySlotNeg]

/-- Witness for C3 at the scenario day (+500 / -100 / 0): the negative lanes
are non-empty and slot index 0 holds the value closest to zero. -/
theorem slot_assignment_spec_witness :
    ∃ s ∈ (processDay c3Recs (c3Key, c3DayMap)).negSlots, s.slotIndex = 0 ∧
      ∀ s2 ∈ (processDay c3Recs (c3Key, c3DayMap)).negSlots, s2.value ≤ s.value :=
  (slot_assignment_spec c3Recs _ c3_day_mem).2.2.2 c3_negSlots_ne

/-- C8: color stability.  Every rendered lane's color equals `colorOf` of
its creative name — a single global map — so any two lanes, on any days,
sharing a creative name share a color; `colorOf` cycles the fixed palette by
the creative's rank; and the ranking is sorted by whole-range total profit,
descending.  The pipeline is a pure function of the record list, so
re-running aggregation and slot assignment reproduces the identical
creative-to-color mapping. -/
theorem color_stability (rs : List DailyRecord) :
    (∀ day ∈ chartDataOf rs, ∀ s ∈ day.posSlots ++ day.negSlots,
        s.color = colorOf rs s.name)
  ∧ (∀ day1 ∈ chartDataOf rs, ∀ day2 ∈ chartDataOf rs,
      ∀ s1 ∈ day1.posSlots ++ day1.negSlots, ∀ s2 ∈ day2.posSlots ++ day2.negSlots,
        s1.name = s2.name → s1.color = s2.color)
  ∧ (∀ n i, (sortedCreatives rs).findIdx? (fun m => decide (m = n)) = some i →
      colorOf rs n = COLORS.getD (i % COLORS.length) "")
  ∧ (sortedCreatives rs).Pairwise
      (fun a b => totalProfitOf rs b ≤ totalProfitOf rs a) := by
  have hcol : ∀ day ∈ chartDataOf rs, ∀ s ∈ day.posSlots ++ day.negSlots,
      s.color = colorOf rs s.name := by
    intro day hday s hs
    rcases List.mem_map.mp hday with ⟨dd, hdd, rfl⟩
    rcases List.mem_append.mp hs with h | h
    · have h' : s ∈ daySlotPos rs (dayPositives dd) := h
      obtain ⟨i, hi, rfl⟩ := mem_daySlotPos.mp h'
      rfl
    · have h' : s ∈ daySlotNeg rs (dayNegatives dd) := h
      obtain ⟨i, hi, rfl⟩ := mem_daySlotNeg.mp h'
      rfl
  refine ⟨hcol, ?_, ?_, ?_⟩
  · intro d1 h1 d2 h2 s1 hs1 s2 hs2 hname
    rw [hcol d1 h1 s1 hs1, hcol d2 h2 s2 hs2, hname]
  · intro n i h
    rw [colorOf, h]
  · have h := @List.sorted_mergeSort String
      (fun a b => decide (totalProfitOf rs b ≤ totalProfitOf rs a))
      (fun a b c hab hbc => by
        simp only [decide_eq_true_eq] at hab hbc ⊢
        exact le_trans hbc hab)
      (fun a b => by
        simp only [Bool.or_eq_true, decide_eq_true_eq]
        exact le_total _ _)
      (creativeSet rs)
    exact h.imp of_decide_eq_true

/-- One-record input for the C8 witness. -/
def c8Recs : List DailyRecord :=
  [{ date := "2025-01-01", creativeName := "A", creativeLink := "", profit := 5 }]

/-- The C8 witness day's bucket key. -/
def c8Key : String := normDate "2025-01-01"

/-- The C8 witness day's per-creative profit map. -/
def c8DayMap : List (String × ℚ) := [("A", 5)]

lemma c8_build : buildDailyMap c8Recs = [(c8Key, c8DayMap)] := by
  simp [buildDailyMap, c8Recs, upsertDaily, upsertDay, dispKey, c8Key, c8DayMap]

lemma c8_chart : chartDataOf c8Recs = [processDay c8Recs (c8Key, c8DayMap)] := by
  rw [chartDataOf, c8_build, mergeSort_single]
  rfl

lemma c8_positives : dayPositives (c8Key, c8DayMap) = [("A", 5)] := by
  have hfil : (dayCreativesOf (c8Key, c8DayMap)).filter (fun e => decide (0 < e.2))
      = [("A", 5)] := by
    norm_num [dayCreativesOf, c8DayMap, List.filter_cons, List.filter_nil]
  rw [dayPositives, hfil]
  exact mergeSort_single _ _

lemma c8_posSlots :
    (processDay c8Recs (c8Key, c8DayMap)).posSlots
      = [posSlotAt c8Recs [("A", 5)] (0, ("A", 5))] := by
  show daySlotPos c8Recs (dayPositives (c8Key, c8DayMap)) = _
  rw [daySlotPos, c8_positives]
  rfl

/-- Witness for C8: the single lane's color is exactly the globally-ranked
color of its creative name. -/
theorem color_stability_witness :
    (posSlotAt c8Recs [("A", 5)] (0, ("A", 5))).color
      = colorOf c8Recs (posSlotAt c8Recs [("A", 5)] (0, ("A", 5))).name := by
  apply (color_stability c8Recs).1 (processDay c8Recs (c8Key, c8DayMap))
  · rw [c8_chart]
    exact List.mem_singleton_self _
  · apply List.mem_append_left
    rw [c8_posSlots]
    exact List.mem_singleton_self _

/-! ## Tooltip grace-timer controller (`clearHideTimeout` / `scheduleHide`,
identical in both charts; grace period 300 ms)

Time is in milliseconds, modelled as ℚ.  The runtime is single-threaded: a
pending `setTimeout` callback runs the moment execution reaches or passes
its deadline, which we model by firing any due timer lazily before each
event and before each observation. -/

/-- Tooltip controller state: visibility, the pin flag (pointer inside the
tooltip panel), and the pending hide deadline (`none` = no timer). -/
structure TooltipState where
  visible : Bool
  pinned : Bool
  pending : Option ℚ
deriving DecidableEq

/-- `scheduleHide`'s delay: `setTimeout(..., 300)`. -/
def gracePeriod : ℚ := 300

/-- Fire a due hide timer: at or past the deadline the callback runs — it
hides the tooltip unless pinned — and the timer is consumed. -/
def fireIfDue (t : ℚ) (s : TooltipState) : TooltipState :=
  match s.pending with
  | none => s
  | some tf =>
      if tf ≤ t then
        { visible := if s.pinned then s.visible else false
          pinned := s.pinned, pending := none }
      else s

/-- Controller inputs (post-throttle): the hit-test found a point, the
hit-test found nothing, the pointer entered the tooltip panel, the pointer
left the tooltip panel. -/
inductive PointerEvent : Type
  | hit (t : ℚ)
  | miss (t : ℚ)
  | enterTooltip (t : ℚ)
  | leaveTooltip (t : ℚ)
deriving DecidableEq

/-- An event's timestamp. -/
def PointerEvent.time : PointerEvent → ℚ
  | .hit t => t
  | .miss t => t
  | .enterTooltip t => t
  | .leaveTooltip t => t

/-- Process one event (due timers fire first): a hit shows the tooltip and
`clearHideTimeout`s; a miss `scheduleHide`s (cancel + re-arm at t + 300);
entering the panel pins and cancels the pending hide; leaving unpins and
`scheduleHide`s.  While pinned, `handleNativeMouseMove` returns without
acting, so hits and misses are ignored. -/
def handleEvent (s : TooltipState) (e : PointerEvent) : TooltipState :=
  match e with
  | .hit t =>
      let s2 := fireIfDue t s
      if s2.pinned then s2
      else { visible := true, pinned := s2.pinned, pending := none }
  | .miss t =>
      let s2 := fireIfDue t s
      if s2.pinned then s2
      else { s2 with pending := some (t + gracePeriod) }
  | .enterTooltip t =>
      let s2 := fireIfDue t s
      { visible := s2.visible, pinned := true, pending := none }
  | .leaveTooltip t =>
      let s2 := fireIfDue t s
      { s2 with pinned := false, pending := some (t + gracePeriod) }

/-- Process a chronological event list. -/
def runEvents (s : TooltipState) (evs : List PointerEvent) : TooltipState :=
  evs.foldl handleEvent s

/-- The state an observer sees at time `T`: every event up to `T`
processed, and any timer due by `T` fired. -/
def observeAt (s : TooltipState) (evs : List PointerEvent) (T : ℚ) : TooltipState :=
  fireIfDue T (runEvents s (evs.filter (fun e => decide (e.time ≤ T))))

lemma fireIfDue_pinned (t : ℚ) (s : TooltipState) :
    (fireIfDue t s).pinned = s.pinned := by
  rw [fireIfDue]
  split
  · rfl
  · split <;> rfl

lemma fireIfDue_of_not_due {t : ℚ} {s : TooltipState}
    (h : s.pending = none ∨ ∃ d, s.pending = some d ∧ t < d) :
    fireIfDue t s = s := by
  rcases h with h | ⟨d, hd, htd⟩
  · rw [fireIfDue, h]
  · rw [fireIfDue, hd]
    exact if_neg (not_le.mpr htd)

lemma runEvents_append (s : TooltipState) (l1 l2 : List PointerEvent) :
    runEvents s (l1 ++ l2) = runEvents (runEvents s l1) l2 := by
  rw [runEvents, runEvents, runEvents, List.foldl_append]

lemma run_miss_events_window (T : ℚ) (evs : List PointerEvent)
    (hmiss : ∀ e ∈ evs, ∃ t, e = PointerEvent.miss t ∧ t ≤ T ∧ T < t + gracePeriod) :
    ∀ s : TooltipState, s.visible = true → s.pinned = false →
      (s.pending = none ∨ ∃ d, s.pending = some d ∧ T < d) →
      (runEvents s evs).visible = true ∧ (runEvents s evs).pinned = false ∧
        ((runEvents s evs).pending = none ∨
          ∃ d, (runEvents s evs).pending = some d ∧ T < d) := by
  induction evs with
  | nil => intro s h1 h2 h3; exact ⟨h1, h2, h3⟩
  | cons e evs ih =>
      intro s h1 h2 h3
      obtain ⟨t, rfl, ht, htw⟩ := hmiss e (List.mem_cons_self e evs)
      have hfire : fireIfDue t s = s := by
        apply fireIfDue_of_not_due
        rcases h3 with h | ⟨d, hd, hTd⟩
        · exact Or.inl h
        · exact Or.inr ⟨d, hd, lt_of_le_of_lt ht hTd⟩
      have hstep : handleEvent s (PointerEvent.miss t)
          = { s with pending := some (t + gracePeriod) } := by
        rw [handleEvent]
        rw [hfire, if_neg (by rw [h2]; exact Bool.false_ne_true)]
      rw [runEvents, List.foldl_cons, hstep]
      exact ih (fun e he => hmiss e (List.mem_cons_of_mem _ he))
        _ h1 h2 (Or.inr ⟨t + gracePeriod, rfl, htw⟩)

lemma run_misses_pending (ts : List ℚ) (tl : ℚ) :
    ts.getLast? = some tl →
    ∀ s : TooltipState, s.pinned = false →
      (runEvents s (ts.map PointerEvent.miss)).pinned = false ∧
        (runEvents s (ts.map PointerEvent.miss)).pending
          = some (tl + gracePeriod) := by
  induction ts with
  | nil => intro h; cases h
  | cons t ts ih =>
      intro htl s hpin
      have hpin2 : (fireIfDue t s).pinned = false := by
        rw [fireIfDue_pinned]; exact hpin
      have hstep : handleEvent s (PointerEvent.miss t)
          = { fireIfDue t s with pending := some (t + gracePeriod) } := by
        rw [handleEvent]
        dsimp only
        rw [if_neg (by rw [hpin2]; exact Bool.false_ne_true)]
      rw [runEvents, List.map_cons, List.foldl_cons, hstep]
      cases ts with
      | nil =>
          rw [List.getLast?_singleton] at htl
          cases htl
          exact ⟨hpin2, rfl⟩
      | cons t2 ts2 =>
          rw [List.getLast?_cons_cons] at htl
          exact ih htl _ hpin2

/-- C9: tooltip grace-timer behaviour, from a Showing state (visible,
unpinned, no pending hide).  (1) A burst of hit-test misses each within the
300 ms grace window of a rescue event at time `T` — a new hit, or the
pointer entering the tooltip panel — never hides the tooltip: observed at
any time, it is still visible, because each miss only re-arms the timer and
the rescue cancels it.  (2) A miss burst with no rescue does hide it: once
the last miss is `gracePeriod` old, the observer finds the tooltip hidden. -/
theorem tooltip_grace_period (s0 : TooltipState) (ts : List ℚ) (T u : ℚ)
    (r : PointerEvent) (h0v : s0.visible = true) (h0p : s0.pinned = false)
    (h0d : s0.pending = none) :
    ((r = PointerEvent.hit T ∨ r = PointerEvent.enterTooltip T) →
      (∀ t ∈ ts, t ≤ T ∧ T < t + gracePeriod) →
      (observeAt s0 (ts.map PointerEvent.miss ++ [r]) u).visible = true)
  ∧ (∀ tl, ts.getLast? = some tl → (∀ t ∈ ts, t ≤ tl) → tl + gracePeriod ≤ u →
      (observeAt s0 (ts.map PointerEvent.miss) u).visible = false) := by
  constructor
  · intro hr hwin
    rw [observeAt, List.filter_append]
    have hrt : r.time = T := by
      rcases hr with rfl | rfl <;> rfl
    have hfiltmiss : ∀ e ∈ (ts.map PointerEvent.miss).filter
        (fun e => decide (e.time ≤ u)), ∃ t, e = PointerEvent.miss t ∧
          t ≤ T ∧ T < t + gracePeriod := by
      intro e he
      have hmem := List.mem_of_mem_filter he
      rcases List.mem_map.mp hmem with ⟨t, hts, rfl⟩
      exact ⟨t, rfl, (hwin t hts).1, (hwin t hts).2⟩
    set S := runEvents s0 ((ts.map PointerEvent.miss).filter
      (fun e => decide (e.time ≤ u))) with hSdef
    have hrun := run_miss_events_window T _ hfiltmiss s0 h0v h0p (Or.inl h0d)
    by_cases hTu : T ≤ u
    · have hfr : [r].filter (fun e => decide (e.time ≤ u)) = [r] := by
        simp [List.filter_singleton, hrt, hTu]
      rw [hfr, runEvents_append]
      rw [← hSdef]
      have hfireS : fireIfDue T S = S := fireIfDue_of_not_due hrun.2.2
      rcases hr with rfl | rfl
      · have hstep : handleEvent S (PointerEvent.hit T)
            = { visible := true, pinned := false, pending := none } := by
          rw [handleEvent]
          rw [hfireS, if_neg (by rw [hrun.2.1]; exact Bool.false_ne_true), hrun.2.1]
        show (fireIfDue u (runEvents S [PointerEvent.hit T])).visible = true
        rw [runEvents, List.foldl_cons, List.foldl_nil, hstep]
        rfl
      · have hstep : handleEvent S (PointerEvent.enterTooltip T)
            = { visible := true, pinned := true, pending := none } := by
          rw [handleEvent]
          rw [hfireS, hrun.1]
        show (fireIfDue u (runEvents S [PointerEvent.enterTooltip T])).visible = true
        rw [runEvents, List.foldl_cons, List.foldl_nil, hstep]
        rfl
    · have hfr : [r].filter (fun e => decide (e.time ≤ u)) = [] := by
        simp [List.filter_singleton, hrt, hTu]
      rw [hfr, List.append_nil, ← hSdef]
      have hfire : fireIfDue u S = S := by
        apply fireIfDue_of_not_due
        rcases hrun.2.2 with h | ⟨d, hd, hTd⟩
        · exact Or.inl h
        · exact Or.inr ⟨d, hd, lt_trans (not_le.mp hTu) hTd⟩
      rw [hfire]
      exact hrun.1
  · intro tl htl hbound hu
    rw [observeAt]
    have hfilt : (ts.map PointerEvent.miss).filter (fun e => decide (e.time ≤ u))
        = ts.map PointerEvent.miss := by
      apply List.filter_eq_self.mpr
      intro e he
      rcases List.mem_map.mp he with ⟨t, hts, rfl⟩
      have h300 : (0 : ℚ) < gracePeriod := by norm_num [gracePeriod]
      have : t ≤ u := le_trans (hbound t hts) (by linarith)
      simpa using this
    rw [hfilt]
    obtain ⟨hpin, hpend⟩ := run_misses_pending ts tl htl s0 h0p
    rw [fireIfDue, hpend]
    dsimp only
    rw [if_pos hu, hpin]
    simp

/-- The Showing start state for the C9 witness. -/
def showingState : TooltipState :=
  { visible := true, pinned := false, pending := none }

/-- Witness for C9: three misses at 0/100/200 ms rescued by a hit at 250 ms
leave the tooltip visible even when observed at 400 ms, while a lone miss at
0 ms with no rescue has hidden it by 300 ms. -/
theorem tooltip_grace_period_witness :
    (observeAt showingState
        ([0, 100, 200].map PointerEvent.miss ++ [PointerEvent.hit 250]) 400).visible
      = true
  ∧ (observeAt showingState ([(0 : ℚ)].map PointerEvent.miss) 300).visible = false := by
  constructor
  · exact (tooltip_grace_period showingState [0, 100, 200] 250 400
      (PointerEvent.hit 250) rfl rfl rfl).1 (Or.inl rfl)
      (by intro t ht; fin_cases ht <;> norm_num [gracePeriod])
  · exact (tooltip_grace_period showingState [0] 0 300
      (PointerEvent.hit 0) rfl rfl rfl).2 0 rfl
      (by intro t ht; fin_cases ht; norm_num)
      (by norm_num [gracePeriod])

end AdDashboard
